import Mathlib

/-!
Shallow embedding of the TinaCMS `Database` layer
(`packages/@tinacms/graphql/src/database/index.ts`) and proofs about it.

JavaScript objects holding document payloads are modelled as association
lists `List (String × Val)` with JavaScript assignment semantics
(`setKey`: later assignments overwrite earlier keys).  The LevelDB-style
ordered key-value store is modelled as a `Store` of membership functions;
a `batch` is a fold of single-op updates, mirroring the atomic batch of
the source.

Modules of the repository that are imported by `database/index.ts` but are
not part of the given sources (`./datalayer`, `./level`, `./util`,
`@tinacms/schema-tools`) are modelled from the specification; each such
definition carries a doc comment starting with `Modelled from the spec:`.
-/

namespace TinaDb

/-- Dynamic JavaScript values appearing in document payloads.  `undef`
models the JavaScript `undefined` value produced by reading an absent
property. -/
inductive Val where
  | str (s : String)
  | num (n : Int)
  | bool (b : Bool)
  | undef
deriving DecidableEq, Repr

/-- A document payload: a JavaScript object, modelled as an association
list from property names to values. -/
abbrev Doc := List (String × Val)

/-- Property read `obj[k]` returning the first binding for `k`. -/
def lookupList {α : Type} (l : List (String × α)) (k : String) : Option α :=
  (l.find? (fun kv => kv.1 = k)).map (fun kv => kv.2)

/-- Property write `obj[k] = v` with JavaScript overwrite semantics:
any existing binding for `k` is replaced. -/
def setKey {α : Type} (l : List (String × α)) (k : String) (v : α) :
    List (String × α) :=
  l.filter (fun kv => kv.1 ≠ k) ++ [(k, v)]

/-- Semantic field types of the Tina schema
(`field.type` in the source). -/
inductive FieldType where
  | string
  | number
  | boolean
  | datetime
  | image
  | reference
  | object
  | richText
deriving DecidableEq, Repr

/-- A schema field: name, semantic type and the optional `indexed` flag
(`TinaFieldInner` as used by `getIndexDefinitions`). -/
structure Field where
  name : String
  type : FieldType
  indexed : Option Bool
deriving DecidableEq, Repr

/-- A reference to a field inside a user-declared composite index
(`index.fields` entries in the source). -/
structure CompositeIndexField where
  name : String
deriving DecidableEq, Repr

/-- A user-declared composite index on a collection
(`collection.indexes` entries in the source). -/
structure CompositeIndex where
  name : String
  fields : List CompositeIndexField
deriving DecidableEq, Repr

/-- A collection of the enriched schema, restricted to the attributes read
by `getIndexDefinitions`.  A collection defined by templates rather than
fields is modelled by `fields = []` (the source guards both loops with
`if (collection.fields)` / `if (collection.indexes)`). -/
structure Collection where
  name : String
  fields : List Field
  indexes : List CompositeIndex
deriving DecidableEq, Repr

/-- Modelled from the spec: `DEFAULT_COLLECTION_SORT_KEY` is exported by
`./datalayer`, which is not among the given sources; §6 of the spec fixes
the default sort key name as `__filepath__`. -/
def DEFAULT_COLLECTION_SORT_KEY : String := "__filepath__"

/-- Modelled from the spec: `DEFAULT_NUMERIC_LPAD` is exported by
`./datalayer`, which is not among the given sources; §4.1 of the spec
fixes the default numeric pad width as 4. -/
def DEFAULT_NUMERIC_LPAD : Nat := 4

/-- Numeric left-padding descriptor (`{ fillString, maxLength }` in the
source). -/
structure Pad where
  fillString : String
  maxLength : Nat
deriving DecidableEq, Repr

/-- One column of an index definition (`{ name, type, pad? }` in the
source).  For user-declared composite indexes the source resolves the
type with `collection.fields.find(...)?.type`, which may be absent, hence
`Option FieldType`. -/
structure IndexFieldDef where
  name : String
  type : Option FieldType
  pad : Option Pad
deriving DecidableEq, Repr

/-- An index definition: the ordered list of its columns. -/
structure IndexDefinition where
  fields : List IndexFieldDef
deriving DecidableEq, Repr

/-- The skip condition of the field loop in `getIndexDefinitions`:
`(field.indexed !== undefined && field.indexed === false) || field.type === 'object'`. -/
def skipsField (f : Field) : Prop :=
  (f.indexed.isSome ∧ f.indexed = some false) ∨ f.type = FieldType.object

instance (f : Field) : Decidable (skipsField f) := by
  unfold skipsField; infer_instance

/-- The single-column index definition the field loop of
`getIndexDefinitions` assigns for a field it does not skip:
`{ fields: [{ name, type, pad: type === 'number' ? {fillString:'0', maxLength: DEFAULT_NUMERIC_LPAD} : undefined }] }`. -/
def singleColumnDef (f : Field) : IndexDefinition :=
  ⟨[⟨f.name, some f.type,
     if f.type = FieldType.number then some ⟨"0", DEFAULT_NUMERIC_LPAD⟩
     else none⟩]⟩

/-- The definition `getIndexDefinitions` builds for a user-declared
composite index: each declared field resolves its type with
`collection.fields.find(field => indexField.name === field.name)?.type`. -/
def compositeDef (c : Collection) (idx : CompositeIndex) : IndexDefinition :=
  ⟨idx.fields.map (fun g =>
    ⟨g.name, (c.fields.find? (fun f => g.name = f.name)).map (fun f => f.type),
     none⟩)⟩

/-- The per-collection table built by `Database.getIndexDefinitions` for a
single collection: starts from the default `__filepath__` entry, then for
every field not skipped by `skipsField` assigns a single-column entry
under the field name, then assigns each user-declared composite index
under its declared name.  Record assignments are `setKey` (overwrite). -/
def collectionIndexDefinitions (c : Collection) : List (String × IndexDefinition) :=
  let base : List (String × IndexDefinition) :=
    [(DEFAULT_COLLECTION_SORT_KEY, ⟨[]⟩)]
  let withFields :=
    c.fields.foldl
      (fun acc f =>
        if skipsField f then acc else setKey acc f.name (singleColumnDef f))
      base
  c.indexes.foldl
    (fun acc idx => setKey acc idx.name (compositeDef c idx))
    withFields

/-- An enriched schema, reduced to what `getIndexDefinitions` reads:
its list of collections (`schema.getCollections()`). -/
abbrev Schema := List Collection

/-- Modelled from the spec: `createSchema` lives in
`../schema/createSchema`, which is not among the given sources; per §1 the
core "consumes a validated, enriched schema", so schema creation is
modelled as handing over the stored collection list unchanged. -/
def createSchema (stored : Schema) : Schema := stored

/-- The lookup map held by the `_lookup` cache; its contents are opaque to
the claims under proof. -/
abbrev LookupMap := List (String × String)

/-- The three memoized caches hanging off a `Database` instance:
`tinaSchema`, `_lookup` and `collectionIndexDefinitions`. -/
structure DbCache where
  tinaSchema : Option Schema
  lookup : Option LookupMap
  collectionIndexDefinitions : Option (List (String × List (String × IndexDefinition)))
deriving DecidableEq, Repr

/-- A `Database` cache with nothing memoized yet. -/
def emptyCache : DbCache := ⟨none, none, none⟩

/-- `Database.clearCache`: sets `this.tinaSchema = null` and
`this._lookup = null`.  (The source does not touch
`this.collectionIndexDefinitions`.) -/
def clearCache (c : DbCache) : DbCache :=
  { c with tinaSchema := none, lookup := none }

/-- `Database.getSchema`: returns the memoized schema if present,
otherwise builds it from the stored schema via `createSchema` and
memoizes it. -/
def getSchema (stored : Schema) (c : DbCache) : Schema × DbCache :=
  match c.tinaSchema with
  | some s => (s, c)
  | none =>
    let s := createSchema stored
    (s, { c with tinaSchema := some s })

/-- The table-building loop body of `getIndexDefinitions`: starting from
`undefined`, each collection of the schema initializes the table if needed
(`this.collectionIndexDefinitions = this.collectionIndexDefinitions || {}`)
and assigns its per-collection table under its name.  A schema with no
collections leaves the cache `undefined`. -/
def buildDefsTable (schema : Schema) :
    Option (List (String × List (String × IndexDefinition))) :=
  schema.foldl
    (fun acc c => some (setKey (acc.getD []) c.name (collectionIndexDefinitions c)))
    none

/-- `Database.getIndexDefinitions`: if `this.collectionIndexDefinitions`
is unset, builds the table from the (memoized) schema and stores it;
otherwise returns the memoized table unchanged.  The returned value is
`Option`-typed because a schema without collections never initializes the
field. -/
def getIndexDefinitions (stored : Schema) (c : DbCache) :
    Option (List (String × List (String × IndexDefinition))) × DbCache :=
  match c.collectionIndexDefinitions with
  | some t => (some t, c)
  | none =>
    let sc := getSchema stored c
    let t := buildDefsTable sc.1
    (t, { sc.2 with collectionIndexDefinitions := t })

/-- `SYSTEM_FILES` from the source. -/
def SYSTEM_FILES : List String := ["_schema", "_graphql", "_lookup"]

/-- Modelled from the spec: index keys are produced by the key codec of
`./datalayer`, which is not among the given sources.  §4.1 gives the
composite key format `f1⟨SEP⟩f2⟨SEP⟩…⟨SEP⟩fN⟨SEP⟩path` with the document
path as the trailing component; the key is modelled structurally as the
ordered list of field values plus the trailing path. -/
structure IndexKey where
  fieldValues : List Val
  path : String
deriving DecidableEq, Repr

/-- Put/del discriminator for batch operations. -/
inductive OpKind where
  | put
  | del
deriving DecidableEq, Repr

/-- One operation of an atomic batch: a secondary-index entry put/del in
the sublevel of a named index, or a primary-record put/del in the root
sublevel. -/
inductive BatchOp where
  | idx (kind : OpKind) (indexName : String) (key : IndexKey)
  | putPrimary (path : String) (value : Doc)
  | delPrimary (path : String)
deriving Repr

/-- Modelled from the spec: `makeIndexOpsForDocument` lives in
`./datalayer`, which is not among the given sources.  Per §3 ("Every
primary record in collection C has exactly one entry in every defined
index of C") and §4.1, it emits one op per defined index, keyed by the
document's values for the index's columns followed by the trailing
path. -/
def makeIndexOpsForDocument (filepath : String)
    (defs : List (String × IndexDefinition)) (data : Doc) (kind : OpKind) :
    List BatchOp :=
  defs.map (fun d =>
    BatchOp.idx kind d.1
      ⟨d.2.fields.map (fun f => (lookupList data f.name).getD Val.undef), filepath⟩)

/-- The key `makeIndexOpsForDocument` derives for one document in one
index. -/
def docIndexKey (d : IndexDefinition) (data : Doc) (filepath : String) : IndexKey :=
  ⟨d.fields.map (fun f => (lookupList data f.name).getD Val.undef), filepath⟩

/-- The level store: primary records in the root sublevel, secondary
index entries (empty markers, so membership only) in per-index sublevels,
and the bridge filesystem as a set of file paths. -/
structure Store where
  primary : String → Option Doc
  indexes : String × IndexKey → Bool
  files : String → Bool

/-- A store with no records, no index entries and no files. -/
def emptyStore : Store :=
  ⟨fun _ => none, fun _ => false, fun _ => false⟩

/-- Application of a single batch op to the store. -/
def applyOp (s : Store) : BatchOp → Store
  | BatchOp.idx OpKind.put n k =>
    { s with indexes := fun e => if e = (n, k) then true else s.indexes e }
  | BatchOp.idx OpKind.del n k =>
    { s with indexes := fun e => if e = (n, k) then false else s.indexes e }
  | BatchOp.putPrimary p v =>
    { s with primary := fun q => if q = p then some v else s.primary q }
  | BatchOp.delPrimary p =>
    { s with primary := fun q => if q = p then none else s.primary q }

/-- `level.batch(ops)`: ops applied in order as one atomic batch. -/
def applyBatch (s : Store) (ops : List BatchOp) : Store :=
  ops.foldl applyOp s

/-- The effect a single batch op has on the index entry `e`, if any. -/
def touchIdx (e : String × IndexKey) : BatchOp → Option OpKind
  | BatchOp.idx kind n k => if e = (n, k) then some kind else none
  | _ => none

/-- The last op of the list affecting index entry `e` (ops apply left to
right, so the last one determines the final state). -/
def lastIdxOp (e : String × IndexKey) : List BatchOp → Option OpKind
  | [] => none
  | op :: rest =>
    match lastIdxOp e rest with
    | some kind => some kind
    | none => touchIdx e op

/-- The effect a single batch op has on the primary record at `p`, if
any. -/
def touchPrimary (p : String) : BatchOp → Option (Option Doc)
  | BatchOp.putPrimary q v => if p = q then some (some v) else none
  | BatchOp.delPrimary q => if p = q then some none else none
  | _ => none

/-- The last op of the list affecting the primary record at `p`. -/
def lastPrimaryOp (p : String) : List BatchOp → Option (Option Doc)
  | [] => none
  | op :: rest =>
    match lastPrimaryOp p rest with
    | some r => some r
    | none => touchPrimary p op

/-- Template and collection facts `get`/`put`/`stringifyFile` obtain from
the schema for a given file path.  Template resolution itself happens in
`@tinacms/schema-tools` (not among the given sources); it is modelled as
an already-resolved context: `bodyFieldName` is the result of
`template.fields.find(f => (f.type = string or rich-text) and f.isBody)`,
`format` is `collection.format`, `extension` is `path.extname(filepath)`,
`hasTemplates` is `!!collection.templates`, and `templateName` is
`lastItem(template.namespace)`. -/
structure FileCtx where
  format : String
  extension : String
  bodyFieldName : Option String
  collectionName : String
  collectionPath : String
  templateName : String
  hasTemplates : Bool
deriving DecidableEq, Repr

/-- The payload reshaping of `Database.stringifyFile`: when the
collection format is `md`/`mdx` and the template has a body field, copy
every property except the body field and assign the body field's value
under `$_body`; otherwise the payload is the data unchanged. -/
def mkPayload (format : String) (bodyFieldName : Option String) (data : Doc) : Doc :=
  match bodyFieldName with
  | some b =>
    if format = "md" ∨ format = "mdx" then
      setKey (data.filter (fun kv => kv.1 ≠ b)) "$_body"
        ((lookupList data b).getD Val.undef)
    else data
  | none => data

/-- Errors raised by the database layer. -/
inductive DbError where
  | unexpectedConfigGet (filepath : String)
  | unexpectedConfigPut (filepath : String)
  | notFound (filepath : String)
  | fetchError (filepath : String) (original : DbError)
deriving DecidableEq, Repr

/-- `Database.stringifyFile`, restricted to its effect on the payload:
throws for the reserved system files, otherwise reshapes the payload via
the body-field convention.  (File-format stringification itself lives in
`./util` and only affects the bridge file contents, which the claims do
not inspect.) -/
def stringifyFileM (ctx : FileCtx) (filepath : String) (data : Doc) :
    Except DbError Doc :=
  if SYSTEM_FILES.contains filepath then
    Except.error (DbError.unexpectedConfigPut filepath)
  else
    Except.ok (mkPayload ctx.format ctx.bodyFieldName data)

/-- `Database.put` (paths are taken as already normalized; `normalizePath`
lives in `./util`, not among the given sources, and the spec only requires
forward-slashed paths).  Mirrors the source order: system-file check,
stringify, bridge write, put-ops from the new payload, read-before-write
of the existing record, del-ops from the existing record, then one atomic
batch `delOps ++ putOps ++ [primary put]`.  Any error is caught and
wrapped as the write-path fetch error; an error escapes before any store
or bridge write happens after it. -/
def dbPut (defs : List (String × IndexDefinition)) (ctx : FileCtx)
    (filepath : String) (data : Doc) (s : Store) : Except DbError Store :=
  if SYSTEM_FILES.contains filepath then
    Except.error (DbError.fetchError filepath (DbError.unexpectedConfigPut filepath))
  else
    match stringifyFileM ctx filepath data with
    | Except.error e => Except.error (DbError.fetchError filepath e)
    | Except.ok payload =>
      let s1 := { s with files := fun q => if q = filepath then true else s.files q }
      let putOps := makeIndexOpsForDocument filepath defs payload OpKind.put
      let delOps :=
        match s.primary filepath with
        | some existingItem => makeIndexOpsForDocument filepath defs existingItem OpKind.del
        | none => []
      Except.ok (applyBatch s1 (delOps ++ putOps ++ [BatchOp.putPrimary filepath payload]))

/-- Replacement of the first occurrence of `pat` in `hay`
(JavaScript `String.replace` with a string pattern), over char lists. -/
def replaceFirstL (hay pat : List Char) : List Char :=
  if pat.isEmpty then hay
  else
    match hay with
    | [] => []
    | c :: rest =>
      if pat.isPrefixOf hay then hay.drop pat.length
      else c :: replaceFirstL rest pat

/-- The `.replace(/^\/|\/$/g, '')` step of `_relativePath`: removes one
leading and one trailing slash. -/
def stripEdgeSlashes (l : List Char) : List Char :=
  let l1 := match l with
    | '/' :: rest => rest
    | other => other
  match l1.reverse with
  | '/' :: rest => rest.reverse
  | _ => l1

/-- The `_relativePath` computation of `Database.get`:
`filepath.replace(collection.path, '').replace(/^\/|\/$/g, '')`. -/
def relativePath (collectionPath filepath : String) : String :=
  ⟨stripEdgeSlashes (replaceFirstL filepath.toList collectionPath.toList)⟩

/-- The property names `Database.get` assigns on top of the record's own
data. -/
def metadataKeys : List String :=
  ["_collection", "_keepTemplateKey", "_template", "_relativePath", "_id"]

/-- The metadata spread of `Database.get`:
`{...data, _collection, _keepTemplateKey, _template, _relativePath, _id}`
(later assignments overwrite data properties of the same name). -/
def withMetadata (ctx : FileCtx) (filepath : String) (data : Doc) : Doc :=
  setKey
    (setKey
      (setKey
        (setKey
          (setKey data "_collection" (Val.str ctx.collectionName))
          "_keepTemplateKey" (Val.bool ctx.hasTemplates))
        "_template" (Val.str ctx.templateName))
      "_relativePath" (Val.str (relativePath ctx.collectionPath filepath)))
    "_id" (Val.str filepath)

/-- The body-reshaping step of `Database.get`: for `.md`/`.mdx`
extensions, when the template has a body field and the record owns a
`$_body` property, drop `$_body` and assign its value under the declared
body field name. -/
def reshapeBody (ctx : FileCtx) (contentObject : Doc) : Doc :=
  match ctx.bodyFieldName with
  | some b =>
    if (ctx.extension = ".md" ∨ ctx.extension = ".mdx") ∧
        (lookupList contentObject "$_body").isSome then
      setKey (contentObject.filter (fun kv => kv.1 ≠ "$_body")) b
        ((lookupList contentObject "$_body").getD Val.undef)
    else contentObject
  | none => contentObject

/-- `Database.get` (paths taken as already normalized): throws for system
files; throws when no primary record exists; otherwise moves `$_body`
back under the declared body field name for `.md`/`.mdx` extensions and
assigns the metadata properties. -/
def dbGet (ctx : FileCtx) (filepath : String) (s : Store) : Except DbError Doc :=
  if SYSTEM_FILES.contains filepath then
    Except.error (DbError.unexpectedConfigGet filepath)
  else
    match s.primary filepath with
    | none => Except.error (DbError.notFound filepath)
    | some contentObject =>
      Except.ok (withMetadata ctx filepath (reshapeBody ctx contentObject))

/-- The store after `put`: the batched store on success, the unchanged
store when `put` raised (the source raises before any write). -/
def dbPutD (defs : List (String × IndexDefinition)) (ctx : FileCtx)
    (filepath : String) (data : Doc) (s : Store) : Store :=
  match dbPut defs ctx filepath data s with
  | Except.ok s2 => s2
  | Except.error _ => s

/-- The payload returned by a successful `get` (the empty object when
`get` raised). -/
def dbGetD (ctx : FileCtx) (filepath : String) (s : Store) : Doc :=
  match dbGet ctx filepath s with
  | Except.ok r => r
  | Except.error _ => []

/-- `Database.delete` (paths taken as already normalized): reads the
existing record; if present, one atomic batch of del-ops for every index
derived from the existing record plus the primary del; then the bridge
file is deleted in every case. -/
def dbDelete (defs : List (String × IndexDefinition)) (filepath : String)
    (s : Store) : Store :=
  let afterBatch :=
    match s.primary filepath with
    | some item =>
      applyBatch s
        (makeIndexOpsForDocument filepath defs item OpKind.del ++
          [BatchOp.delPrimary filepath])
    | none => s
  { afterBatch with
    files := fun q => if q = filepath then false else afterBatch.files q }

/-- JavaScript truthiness of an optional number (`if (first)`): `undefined`
and `0` are falsy. -/
def truthyInt : Option Int → Bool
  | none => false
  | some n => n ≠ 0

/-- JavaScript truthiness of an optional string (`if (after)`,
`if (!query.gt)`): `undefined` and the empty string are falsy. -/
def truthyStr : Option String → Bool
  | none => false
  | some s => s ≠ ""

/-- The effective result limit of `Database.query`:
`let limit = 50; if (first) limit = first; else if (last) limit = last`. -/
def effectiveLimit (first last : Option Int) : Int :=
  if truthyInt first then first.getD 0
  else if truthyInt last then last.getD 0
  else 50

/-- The limit the spec sentence describes, written with nullish
coalescing: `first ?? last ?? 50`.  Stated only for refinement comparison
with `effectiveLimit`. -/
def specNullishLimit (first last : Option Int) : Int :=
  first.getD (last.getD 50)

/-- The iteration-bound fields of the `query` object built by
`Database.query` (unset fields are `undefined`). -/
structure RangeQuery where
  gt : Option String
  gte : Option String
  lt : Option String
  lte : Option String
  reverse : Bool
deriving DecidableEq, Repr

/-- The maximum-byte sentinel `'\xFF'` appended to the right filter
suffix. -/
def maxByte : String := "ÿ"

/-- The bound-derivation steps of `Database.query`:
`reverse: !!last`; `if (after) query.gt = atob(after) else if (before)
query.lt = atob(before)`; then
`if (!query.gt && !query.gte) query.gte = filterSuffixes?.left ? filterSuffixes.left : ''` and
`if (!query.lt && !query.lte) query.lte = filterSuffixes?.right ? filterSuffixes.right + '\xFF' : '\xFF'`.
The cursor decode `atob` (base64, from `../util`, not among the given
sources) is abstracted as the parameter `decodeCursor`. -/
def deriveBounds (decodeCursor : String → String) (after before : Option String)
    (filterLeft filterRight : Option String) (last : Option Int) : RangeQuery :=
  let q0 : RangeQuery := ⟨none, none, none, none, truthyInt last⟩
  let q1 :=
    if truthyStr after then { q0 with gt := some (decodeCursor (after.getD "")) }
    else if truthyStr before then { q0 with lt := some (decodeCursor (before.getD "")) }
    else q0
  let q2 :=
    if ¬truthyStr q1.gt ∧ ¬truthyStr q1.gte then
      { q1 with gte := some (if truthyStr filterLeft then filterLeft.getD "" else "") }
    else q1
  let q3 :=
    if ¬truthyStr q2.lt ∧ ¬truthyStr q2.lte then
      { q2 with lte := some (if truthyStr filterRight then filterRight.getD "" ++ maxByte else maxByte) }
    else q2
  q3

/-- One key/value pair yielded by the iterator of `Database.query`,
together with the outcome of the two skip checks of the loop body:
`matched` is the result of the `valuesRegex` match including the arity
check, `filepath` is the `_filepath_` capture group, and `passes` is the
`itemFilter` verdict on the filter subject (both the regex and
`makeFilter` live in `./datalayer`, not among the given sources). -/
structure Candidate where
  key : String
  matched : Bool
  filepath : String
  passes : Bool
deriving DecidableEq, Repr

/-- An accumulated edge `{cursor: key, path: filepath}`. -/
structure Edge where
  cursor : String
  path : String
deriving DecidableEq, Repr

/-- The mutable state of the iteration loop of `Database.query`. -/
structure ScanState where
  edges : List Edge
  startKey : String
  endKey : String
  hasPreviousPage : Bool
  hasNextPage : Bool
deriving DecidableEq, Repr

/-- The loop state before the first iteration. -/
def initialScanState : ScanState := ⟨[], "", "", false, false⟩

/-- The `for await` loop of `Database.query`: skip on regex mismatch,
skip on filter miss, and when the edge list has reached the limit (unless
the limit is `-1`) set `hasPreviousPage` (reverse) or `hasNextPage`
(forward) and break; otherwise update `startKey`/`endKey` (JavaScript
`startKey || key || ''` / `key || ''`) and append the edge. -/
def scanIterate (limit : Int) (reverse : Bool) :
    ScanState → List Candidate → ScanState
  | st, [] => st
  | st, c :: rest =>
    if ¬c.matched then scanIterate limit reverse st rest
    else if ¬c.passes then scanIterate limit reverse st rest
    else if limit ≠ -1 ∧ (st.edges.length : Int) ≥ limit then
      if reverse then { st with hasPreviousPage := true }
      else { st with hasNextPage := true }
    else
      scanIterate limit reverse
        { st with
          edges := st.edges ++ [⟨c.key, c.filepath⟩]
          startKey := if st.startKey ≠ "" then st.startKey else c.key
          endKey := c.key }
        rest

/-- Whether `needle` starts `hay` (over char lists). -/
def startsWithL : List Char → List Char → Bool
  | [], _ => true
  | _ :: _, [] => false
  | a :: as, b :: bs => a = b && startsWithL as bs

/-- Whether `needle` occurs inside `hay` (over char lists). -/
def hasSub (needle : List Char) : List Char → Bool
  | [] => startsWithL needle []
  | c :: rest => startsWithL needle (c :: rest) || hasSub needle rest

/-- JavaScript `haystack.includes(needle)`. -/
def strIncludes (haystack needle : String) : Bool :=
  hasSub needle.toList haystack.toList

/-- What the `catch` around the hydrator call re-raises. -/
inductive HydrateRaise where
  | wrapped (file : String) (collection : String)
  | original
deriving DecidableEq, Repr

/-- The hydrator `catch` block of `Database.query`: when the thrown value
is an `Error` and the edge path does not contain
`.tina/__generated__/_graphql.json`, a `TinaQueryError` wrapping the
original error with the edge path and the collection is thrown; otherwise
the original value is re-thrown unadorned. -/
def hydratorCatch (errorIsError : Bool) (edgePath collection : String) :
    HydrateRaise :=
  if errorIsError ∧ ¬strIncludes edgePath ".tina/__generated__/_graphql.json" then
    HydrateRaise.wrapped edgePath collection
  else
    HydrateRaise.original

/-- Events delivered to the registered index status callback. -/
inductive IndexStatus (E : Type) where
  | inprogress
  | complete
  | failed (error : E)
deriving DecidableEq, Repr

/-- `Database.indexStatusCallbackWrapper`, the wrapper around the bodies
of `indexContent`, `indexContentByPaths` and `deleteContentByPaths`:
emits `inprogress` before running the body, then `complete` on success,
or `failed` carrying the error followed by a re-throw of that same error.
The body is a state transformer that may also fail; the callback is
modelled as an event recorder.  Returns the emitted events in order, the
state after the body, and the overall outcome. -/
def indexStatusCallbackWrapper {σ E : Type} (fn : σ → σ × Except E Unit)
    (s : σ) : List (IndexStatus E) × σ × Except E Unit :=
  let emitted : List (IndexStatus E) := [IndexStatus.inprogress]
  match fn s with
  | (s2, Except.ok _) => (emitted ++ [IndexStatus.complete], s2, Except.ok ())
  | (s2, Except.error e) => (emitted ++ [IndexStatus.failed e], s2, Except.error e)

/-! ### Helper lemmas -/

theorem lookupList_cons {α : Type} (hd : String × α) (tl : List (String × α))
    (k : String) :
    lookupList (hd :: tl) k = if hd.1 = k then some hd.2 else lookupList tl k := by
  by_cases h : hd.1 = k <;> simp [lookupList, List.find?_cons, h]

theorem filter_ne_cons {α : Type} (hd : String × α) (tl : List (String × α))
    (b : String) :
    (hd :: tl).filter (fun kv => kv.1 ≠ b) =
      if hd.1 = b then tl.filter (fun kv => kv.1 ≠ b)
      else hd :: tl.filter (fun kv => kv.1 ≠ b) := by
  by_cases hh : hd.1 = b <;> simp [List.filter_cons, hh]

theorem lookup_filter_ne {α : Type} (l : List (String × α)) (b k : String)
    (h : k ≠ b) :
    lookupList (l.filter (fun kv => kv.1 ≠ b)) k = lookupList l k := by
  induction l with
  | nil => rfl
  | cons hd tl ih =>
    rw [filter_ne_cons]
    by_cases hh : hd.1 = b
    · have hk : ¬hd.1 = k := by rw [hh]; exact fun hc => h hc.symm
      rw [if_pos hh, ih, lookupList_cons, if_neg hk]
    · rw [if_neg hh, lookupList_cons, lookupList_cons, ih]

theorem lookup_filter_self {α : Type} (l : List (String × α)) (b : String) :
    lookupList (l.filter (fun kv => kv.1 ≠ b)) b = none := by
  induction l with
  | nil => rfl
  | cons hd tl ih =>
    rw [filter_ne_cons]
    by_cases hh : hd.1 = b
    · rw [if_pos hh]; exact ih
    · rw [if_neg hh, lookupList_cons, if_neg hh]; exact ih

theorem lookup_append {α : Type} (l1 l2 : List (String × α)) (k : String) :
    lookupList (l1 ++ l2) k =
      match lookupList l1 k with
      | some v => some v
      | none => lookupList l2 k := by
  induction l1 with
  | nil => simp [lookupList]
  | cons hd tl ih =>
    rw [List.cons_append, lookupList_cons, lookupList_cons]
    by_cases hh : hd.1 = k
    · rw [if_pos hh, if_pos hh]
    · rw [if_neg hh, if_neg hh, ih]

theorem lookup_setKey {α : Type} (l : List (String × α)) (k k' : String) (v : α) :
    lookupList (setKey l k v) k' = if k' = k then some v else lookupList l k' := by
  unfold setKey
  rw [lookup_append]
  by_cases h : k' = k
  · subst h
    rw [lookup_filter_self]
    simp [lookupList]
  · rw [lookup_filter_ne _ _ _ h, if_neg h]
    have h2 : ¬k = k' := fun hc => h hc.symm
    cases hlk : lookupList l k' with
    | some v0 => rfl
    | none => simp [lookupList, List.find?_cons, h2]

theorem scanIterate_unlimited (rev : Bool) (cs : List Candidate) (st : ScanState) :
    (scanIterate (-1) rev st cs).hasNextPage = st.hasNextPage ∧
    (scanIterate (-1) rev st cs).hasPreviousPage = st.hasPreviousPage ∧
    (scanIterate (-1) rev st cs).edges =
      st.edges ++ cs.filterMap (fun c =>
        if c.matched ∧ c.passes then some ⟨c.key, c.filepath⟩ else none) := by
  induction cs generalizing st with
  | nil => simp [scanIterate]
  | cons c rest ih =>
    by_cases hm : c.matched
    · by_cases hp : c.passes
      · have hred : scanIterate (-1) rev st (c :: rest) =
            scanIterate (-1) rev
              { st with
                edges := st.edges ++ [⟨c.key, c.filepath⟩]
                startKey := if st.startKey ≠ "" then st.startKey else c.key
                endKey := c.key } rest := by
          simp [scanIterate, hm, hp]
        rw [hred]
        obtain ⟨h1, h2, h3⟩ := ih _
        refine ⟨h1, h2, ?_⟩
        rw [h3]
        simp [hm, hp]
      · have hred : scanIterate (-1) rev st (c :: rest) = scanIterate (-1) rev st rest := by
          simp [scanIterate, hm, hp]
        rw [hred]
        obtain ⟨h1, h2, h3⟩ := ih st
        exact ⟨h1, h2, by rw [h3]; simp [hm, hp]⟩
    · have hred : scanIterate (-1) rev st (c :: rest) = scanIterate (-1) rev st rest := by
        simp [scanIterate, hm]
      rw [hred]
      obtain ⟨h1, h2, h3⟩ := ih st
      exact ⟨h1, h2, by rw [h3]; simp [hm]⟩

theorem lookup_fieldsFold (fs : List Field) (acc : List (String × IndexDefinition))
    (k : String) :
    lookupList
      (fs.foldl
        (fun acc f =>
          if skipsField f then acc else setKey acc f.name (singleColumnDef f))
        acc) k =
      match fs.reverse.find? (fun f => decide (¬skipsField f ∧ f.name = k)) with
      | some f => some (singleColumnDef f)
      | none => lookupList acc k := by
  induction fs generalizing acc with
  | nil => simp
  | cons f rest ih =>
    rw [List.foldl_cons, ih, List.reverse_cons, List.find?_append]
    cases hfind : rest.reverse.find? (fun f => decide (¬skipsField f ∧ f.name = k)) with
    | some g => simp [Option.or]
    | none =>
      by_cases hs : skipsField f
      · simp [Option.or, List.find?, hs]
      · by_cases hk : f.name = k
        · simp [Option.or, List.find?, hs, hk, lookup_setKey]
        · have hk2 : ¬k = f.name := fun hc => hk hc.symm
          simp [Option.or, List.find?, hs, hk, lookup_setKey, hk2]

theorem applyOp_files (s : Store) (op : BatchOp) : (applyOp s op).files = s.files := by
  cases op with
  | idx kind n k => cases kind <;> rfl
  | putPrimary p v => rfl
  | delPrimary p => rfl

theorem applyBatch_files (ops : List BatchOp) (s : Store) :
    (applyBatch s ops).files = s.files := by
  induction ops generalizing s with
  | nil => rfl
  | cons op rest ih =>
    show (applyBatch (applyOp s op) rest).files = s.files
    rw [ih, applyOp_files]

theorem applyOp_indexes (s : Store) (op : BatchOp) (e : String × IndexKey) :
    (applyOp s op).indexes e =
      match touchIdx e op with
      | some OpKind.put => true
      | some OpKind.del => false
      | none => s.indexes e := by
  cases op with
  | idx kind n k =>
    cases kind <;>
      (simp only [applyOp, touchIdx]
       by_cases h : e = (n, k) <;> simp [h])
  | putPrimary p v => rfl
  | delPrimary p => rfl

theorem applyBatch_indexes (ops : List BatchOp) (s : Store) (e : String × IndexKey) :
    (applyBatch s ops).indexes e =
      match lastIdxOp e ops with
      | some OpKind.put => true
      | some OpKind.del => false
      | none => s.indexes e := by
  induction ops generalizing s with
  | nil => rfl
  | cons op rest ih =>
    show (applyBatch (applyOp s op) rest).indexes e = _
    rw [ih, applyOp_indexes]
    show _ = match lastIdxOp e (op :: rest) with
      | some OpKind.put => true
      | some OpKind.del => false
      | none => s.indexes e
    cases hl : lastIdxOp e rest with
    | some kind =>
      have h2 : lastIdxOp e (op :: rest) = some kind := by
        simp [lastIdxOp, hl]
      rw [h2]
      cases kind <;> rfl
    | none =>
      have h2 : lastIdxOp e (op :: rest) = touchIdx e op := by
        simp [lastIdxOp, hl]
      rw [h2]

theorem applyOp_primary (s : Store) (op : BatchOp) (p : String) :
    (applyOp s op).primary p =
      match touchPrimary p op with
      | some r => r
      | none => s.primary p := by
  cases op with
  | idx kind n k => cases kind <;> rfl
  | putPrimary q v =>
    simp only [applyOp, touchPrimary]
    by_cases h : p = q <;> simp [h]
  | delPrimary q =>
    simp only [applyOp, touchPrimary]
    by_cases h : p = q <;> simp [h]

theorem applyBatch_primary (ops : List BatchOp) (s : Store) (p : String) :
    (applyBatch s ops).primary p =
      match lastPrimaryOp p ops with
      | some r => r
      | none => s.primary p := by
  induction ops generalizing s with
  | nil => rfl
  | cons op rest ih =>
    show (applyBatch (applyOp s op) rest).primary p = _
    rw [ih, applyOp_primary]
    show _ = match lastPrimaryOp p (op :: rest) with
      | some r => r
      | none => s.primary p
    cases hl : lastPrimaryOp p rest with
    | some r =>
      have h2 : lastPrimaryOp p (op :: rest) = some r := by
        simp [lastPrimaryOp, hl]
      rw [h2]
    | none =>
      have h2 : lastPrimaryOp p (op :: rest) = touchPrimary p op := by
        simp [lastPrimaryOp, hl]
      rw [h2]

theorem lastIdxOp_append (e : String × IndexKey) (l1 l2 : List BatchOp) :
    lastIdxOp e (l1 ++ l2) =
      match lastIdxOp e l2 with
      | some kind => some kind
      | none => lastIdxOp e l1 := by
  induction l1 with
  | nil =>
    cases hl : lastIdxOp e l2 <;> simp [hl, lastIdxOp]
  | cons op rest ih =>
    show lastIdxOp e (op :: (rest ++ l2)) = _
    simp only [lastIdxOp, ih]
    cases hl2 : lastIdxOp e l2 <;> cases hlr : lastIdxOp e rest <;> simp

theorem lastPrimaryOp_append (p : String) (l1 l2 : List BatchOp) :
    lastPrimaryOp p (l1 ++ l2) =
      match lastPrimaryOp p l2 with
      | some r => some r
      | none => lastPrimaryOp p l1 := by
  induction l1 with
  | nil =>
    cases hl : lastPrimaryOp p l2 <;> simp [hl, lastPrimaryOp]
  | cons op rest ih =>
    show lastPrimaryOp p (op :: (rest ++ l2)) = _
    simp only [lastPrimaryOp, ih]
    cases hl2 : lastPrimaryOp p l2 <;> cases hlr : lastPrimaryOp p rest <;> simp

theorem lastIdxOp_makeOps (e : String × IndexKey) (p : String)
    (defs : List (String × IndexDefinition)) (data : Doc) (kind : OpKind) :
    lastIdxOp e (makeIndexOpsForDocument p defs data kind) =
      if defs.any (fun d => decide (e = (d.1, docIndexKey d.2 data p))) then some kind
      else none := by
  induction defs with
  | nil => simp [makeIndexOpsForDocument, lastIdxOp]
  | cons d rest ih =>
    show lastIdxOp e
        (BatchOp.idx kind d.1 (docIndexKey d.2 data p) ::
          makeIndexOpsForDocument p rest data kind) = _
    simp only [lastIdxOp, ih, touchIdx, List.any_cons]
    by_cases hany : (rest.any fun d => decide (e = (d.1, docIndexKey d.2 data p))) = true
    · rw [if_pos hany]
      simp [hany]
    · have hany' : (rest.any fun d => decide (e = (d.1, docIndexKey d.2 data p))) = false := by
        simpa using hany
      rw [if_neg hany]
      by_cases hd : e = (d.1, docIndexKey d.2 data p) <;> simp [hany', hd]

theorem lastPrimaryOp_makeOps (p q : String)
    (defs : List (String × IndexDefinition)) (data : Doc) (kind : OpKind) :
    lastPrimaryOp q (makeIndexOpsForDocument p defs data kind) = none := by
  induction defs with
  | nil => rfl
  | cons d rest ih =>
    show lastPrimaryOp q
        (BatchOp.idx kind d.1 (docIndexKey d.2 data p) ::
          makeIndexOpsForDocument p rest data kind) = none
    simp [lastPrimaryOp, ih, touchPrimary]

theorem dbPut_ok (defs : List (String × IndexDefinition)) (ctx : FileCtx)
    (p : String) (d : Doc) (s : Store)
    (hsys : SYSTEM_FILES.contains p = false) :
    dbPut defs ctx p d s = Except.ok (dbPutD defs ctx p d s) := by
  have hmem : p ∉ SYSTEM_FILES := by simpa using hsys
  simp [dbPutD, dbPut, stringifyFileM, hmem]

theorem dbPutD_eq (defs : List (String × IndexDefinition)) (ctx : FileCtx)
    (p : String) (d : Doc) (s : Store)
    (hsys : SYSTEM_FILES.contains p = false) :
    dbPutD defs ctx p d s =
      applyBatch { s with files := fun q => if q = p then true else s.files q }
        ((match s.primary p with
          | some existingItem => makeIndexOpsForDocument p defs existingItem OpKind.del
          | none => []) ++
         (makeIndexOpsForDocument p defs (mkPayload ctx.format ctx.bodyFieldName d)
            OpKind.put ++
          [BatchOp.putPrimary p (mkPayload ctx.format ctx.bodyFieldName d)])) := by
  have hmem : p ∉ SYSTEM_FILES := by simpa using hsys
  simp [dbPutD, dbPut, stringifyFileM, hmem]

theorem dbPutD_primary (defs : List (String × IndexDefinition)) (ctx : FileCtx)
    (p : String) (d : Doc) (s : Store) (q : String)
    (hsys : SYSTEM_FILES.contains p = false) :
    (dbPutD defs ctx p d s).primary q =
      if q = p then some (mkPayload ctx.format ctx.bodyFieldName d)
      else s.primary q := by
  rw [dbPutD_eq defs ctx p d s hsys, applyBatch_primary, lastPrimaryOp_append,
    lastPrimaryOp_append]
  by_cases hq : q = p
  · simp [lastPrimaryOp, touchPrimary, hq]
  · simp only [lastPrimaryOp, touchPrimary, hq, if_neg, if_false]
    cases hsp : s.primary p <;>
      simp [lastPrimaryOp_makeOps, lastPrimaryOp, hq]

theorem dbPutD_files (defs : List (String × IndexDefinition)) (ctx : FileCtx)
    (p : String) (d : Doc) (s : Store) (q : String)
    (hsys : SYSTEM_FILES.contains p = false) :
    (dbPutD defs ctx p d s).files q = if q = p then true else s.files q := by
  rw [dbPutD_eq defs ctx p d s hsys, applyBatch_files]

theorem dbPutD_indexes (defs : List (String × IndexDefinition)) (ctx : FileCtx)
    (p : String) (d : Doc) (s : Store) (e : String × IndexKey)
    (hsys : SYSTEM_FILES.contains p = false) :
    (dbPutD defs ctx p d s).indexes e =
      (if (defs.any fun dd =>
            decide (e = (dd.1,
              docIndexKey dd.2 (mkPayload ctx.format ctx.bodyFieldName d) p))) = true
       then true
       else
         match s.primary p with
         | some existingItem =>
           if (defs.any fun dd =>
                decide (e = (dd.1, docIndexKey dd.2 existingItem p))) = true
           then false
           else s.indexes e
         | none => s.indexes e) := by
  rw [dbPutD_eq defs ctx p d s hsys, applyBatch_indexes, lastIdxOp_append,
    lastIdxOp_append, lastIdxOp_makeOps]
  have hpp : lastIdxOp e [BatchOp.putPrimary p
      (mkPayload ctx.format ctx.bodyFieldName d)] = none := rfl
  rw [hpp]
  by_cases hput : (defs.any fun dd =>
      decide (e = (dd.1,
        docIndexKey dd.2 (mkPayload ctx.format ctx.bodyFieldName d) p))) = true
  · simp [hput]
  · have hput' : (defs.any fun dd =>
        decide (e = (dd.1,
          docIndexKey dd.2 (mkPayload ctx.format ctx.bodyFieldName d) p))) = false := by
      simpa using hput
    rw [hput']
    cases hsp : s.primary p with
    | none => simp [lastIdxOp]
    | some existingItem =>
      rw [lastIdxOp_makeOps]
      by_cases hdel : (defs.any fun dd =>
          decide (e = (dd.1, docIndexKey dd.2 existingItem p))) = true
      · simp [hdel]
      · have hdel' : (defs.any fun dd =>
            decide (e = (dd.1, docIndexKey dd.2 existingItem p))) = false := by
          simpa using hdel
        simp [hdel']

theorem dbPutD_indexes_existing (defs : List (String × IndexDefinition))
    (ctx : FileCtx) (p : String) (d : Doc) (s : Store) (e : String × IndexKey)
    (existingItem : Doc)
    (hsys : SYSTEM_FILES.contains p = false)
    (hsp : s.primary p = some existingItem) :
    (dbPutD defs ctx p d s).indexes e =
      (if (defs.any fun dd =>
            decide (e = (dd.1,
              docIndexKey dd.2 (mkPayload ctx.format ctx.bodyFieldName d) p))) = true
       then true
       else if (defs.any fun dd =>
            decide (e = (dd.1, docIndexKey dd.2 existingItem p))) = true
       then false
       else s.indexes e) := by
  rw [dbPutD_indexes defs ctx p d s e hsys, hsp]

theorem dbPutD_indexes_fresh (defs : List (String × IndexDefinition))
    (ctx : FileCtx) (p : String) (d : Doc) (s : Store) (e : String × IndexKey)
    (hsys : SYSTEM_FILES.contains p = false)
    (hsp : s.primary p = none) :
    (dbPutD defs ctx p d s).indexes e =
      (if (defs.any fun dd =>
            decide (e = (dd.1,
              docIndexKey dd.2 (mkPayload ctx.format ctx.bodyFieldName d) p))) = true
       then true
       else s.indexes e) := by
  rw [dbPutD_indexes defs ctx p d s e hsys, hsp]

theorem filter_eq_of_lookup_none {α : Type} (l : List (String × α)) (k : String)
    (h : lookupList l k = none) :
    l.filter (fun kv => kv.1 ≠ k) = l := by
  induction l with
  | nil => rfl
  | cons hd tl ih =>
    rw [lookupList_cons] at h
    by_cases hh : hd.1 = k
    · rw [if_pos hh] at h
      exact absurd h (by simp)
    · rw [if_neg hh] at h
      rw [filter_ne_cons, if_neg hh, ih h]

theorem filter_filter_ne_self {α : Type} (l : List (String × α)) (k : String) :
    (l.filter (fun kv => kv.1 ≠ k)).filter (fun kv => kv.1 ≠ k) =
      l.filter (fun kv => kv.1 ≠ k) := by
  induction l with
  | nil => rfl
  | cons hd tl ih =>
    rw [filter_ne_cons]
    by_cases hh : hd.1 = k
    · rw [if_pos hh, ih]
    · rw [if_neg hh, filter_ne_cons, if_neg hh, ih]

theorem filter_setKey_self {α : Type} (l : List (String × α)) (k : String) (v : α) :
    (setKey l k v).filter (fun kv => kv.1 ≠ k) =
      l.filter (fun kv => kv.1 ≠ k) := by
  unfold setKey
  rw [List.filter_append, filter_filter_ne_self]
  simp

theorem lookup_withMetadata_other (ctx : FileCtx) (p : String) (data : Doc)
    (k : String) (hk : k ∉ metadataKeys) :
    lookupList (withMetadata ctx p data) k = lookupList data k := by
  simp only [metadataKeys, List.mem_cons, List.not_mem_nil, or_false, not_or] at hk
  obtain ⟨h1, h2, h3, h4, h5⟩ := hk
  unfold withMetadata
  rw [lookup_setKey, if_neg h5, lookup_setKey, if_neg h4, lookup_setKey, if_neg h3,
    lookup_setKey, if_neg h2, lookup_setKey, if_neg h1]

theorem lookup_withMetadata_meta (ctx : FileCtx) (p : String) (data : Doc) :
    lookupList (withMetadata ctx p data) "_collection" =
      some (Val.str ctx.collectionName) ∧
    lookupList (withMetadata ctx p data) "_keepTemplateKey" =
      some (Val.bool ctx.hasTemplates) ∧
    lookupList (withMetadata ctx p data) "_template" =
      some (Val.str ctx.templateName) ∧
    lookupList (withMetadata ctx p data) "_relativePath" =
      some (Val.str (relativePath ctx.collectionPath p)) ∧
    lookupList (withMetadata ctx p data) "_id" = some (Val.str p) := by
  unfold withMetadata
  refine ⟨?_, ?_, ?_, ?_, ?_⟩ <;>
    simp [lookup_setKey]

theorem lookup_reshape_mkPayload (ctx : FileCtx) (d : Doc) (k : String)
    (hext : (ctx.format = "md" ∨ ctx.format = "mdx") ↔
      (ctx.extension = ".md" ∨ ctx.extension = ".mdx"))
    (hbody : ∀ b, ctx.bodyFieldName = some b →
      b ≠ "$_body" ∧ (lookupList d b).isSome = true)
    (hnb : lookupList d "$_body" = none) :
    lookupList (reshapeBody ctx (mkPayload ctx.format ctx.bodyFieldName d)) k =
      lookupList d k := by
  cases hbf : ctx.bodyFieldName with
  | none =>
    simp [reshapeBody, mkPayload, hbf]
  | some b =>
    rw [← hbf]
    obtain ⟨hbne, hbsome⟩ := hbody b hbf
    by_cases hfmt : ctx.format = "md" ∨ ctx.format = "mdx"
    · have hex : ctx.extension = ".md" ∨ ctx.extension = ".mdx" := hext.mp hfmt
      obtain ⟨v0, hv0⟩ := Option.isSome_iff_exists.mp hbsome
      have hP : mkPayload ctx.format ctx.bodyFieldName d =
          setKey (d.filter (fun kv => kv.1 ≠ b)) "$_body"
            ((lookupList d b).getD Val.undef) := by
        simp [mkPayload, hbf, hfmt]
      have hPb : lookupList (mkPayload ctx.format ctx.bodyFieldName d) "$_body" =
          some ((lookupList d b).getD Val.undef) := by
        rw [hP, lookup_setKey, if_pos rfl]
      have hcond : (ctx.extension = ".md" ∨ ctx.extension = ".mdx") ∧
          (lookupList (mkPayload ctx.format ctx.bodyFieldName d) "$_body").isSome
            = true :=
        ⟨hex, by rw [hPb]; rfl⟩
      have hR : reshapeBody ctx (mkPayload ctx.format ctx.bodyFieldName d) =
          setKey ((mkPayload ctx.format ctx.bodyFieldName d).filter
              (fun kv => kv.1 ≠ "$_body")) b
            ((lookupList (mkPayload ctx.format ctx.bodyFieldName d) "$_body").getD
              Val.undef) := by
        simp only [reshapeBody, hbf]
        rw [← hbf, if_pos hcond]
      have hfb : lookupList (d.filter (fun kv => kv.1 ≠ b)) "$_body" = none := by
        rw [lookup_filter_ne _ _ _ (fun hc => hbne hc.symm)]
        exact hnb
      have hPf : (mkPayload ctx.format ctx.bodyFieldName d).filter
          (fun kv => kv.1 ≠ "$_body") = d.filter (fun kv => kv.1 ≠ b) := by
        rw [hP, filter_setKey_self, filter_eq_of_lookup_none _ _ hfb]
      rw [hR, hPf, hPb, lookup_setKey]
      by_cases hkb : k = b
      · rw [if_pos hkb, hkb, hv0]
        rfl
      · rw [if_neg hkb, lookup_filter_ne _ _ _ hkb]
    · have hex : ¬(ctx.extension = ".md" ∨ ctx.extension = ".mdx") :=
        fun hc => hfmt (hext.mpr hc)
      have hP : mkPayload ctx.format ctx.bodyFieldName d = d := by
        simp [mkPayload, hbf, hfmt]
      have hR : reshapeBody ctx (mkPayload ctx.format ctx.bodyFieldName d) =
          mkPayload ctx.format ctx.bodyFieldName d := by
        simp only [reshapeBody, hbf]
        rw [if_neg (fun hc => hex hc.1)]
      rw [hR, hP]

/-! ### Claim theorems -/

/-- C2 counterexample: the claim states that after `clearCache` a
subsequent `getIndexDefinitions` rebuilds the index definitions from the
(possibly changed) schema.  The source's `clearCache` nulls only
`tinaSchema` and `_lookup`, not `collectionIndexDefinitions`, so after
memoizing the table for a schema whose `posts` collection has a `rank`
field, clearing the cache, and changing the stored schema to one with a
`title` field, `getIndexDefinitions` still returns the stale memoized
table rather than the table of the new schema. -/
theorem clearCache_stale_index_defs_cex :
    (getIndexDefinitions [⟨"posts", [⟨"title", FieldType.string, none⟩], []⟩]
        (clearCache
          (getIndexDefinitions [⟨"posts", [⟨"rank", FieldType.number, none⟩], []⟩]
            emptyCache).2)).1
      = buildDefsTable [⟨"posts", [⟨"rank", FieldType.number, none⟩], []⟩] ∧
    buildDefsTable [⟨"posts", [⟨"rank", FieldType.number, none⟩], []⟩]
      ≠ buildDefsTable [⟨"posts", [⟨"title", FieldType.string, none⟩], []⟩] := by
  decide

/-- C2 (amended): `clearCache` invalidates the schema cache and the
lookup-map cache, but it does not invalidate the index-definition cache:
after `clearCache`, a subsequent `getIndexDefinitions` still returns the
previously memoized table (for any stored schema) instead of rebuilding
it. -/
theorem clearCache_keeps_index_definition_cache (c : DbCache) (stored : Schema)
    (t : List (String × List (String × IndexDefinition)))
    (h : c.collectionIndexDefinitions = some t) :
    (clearCache c).tinaSchema = none ∧
    (clearCache c).lookup = none ∧
    (clearCache c).collectionIndexDefinitions = some t ∧
    (getIndexDefinitions stored (clearCache c)).1 = some t := by
  refine ⟨rfl, rfl, ?_, ?_⟩ <;> simp [clearCache, getIndexDefinitions, h]

theorem clearCache_keeps_index_definition_cache_witness :
    (clearCache ⟨some [], some [], some [("posts", [("__filepath__", ⟨[]⟩)])]⟩).tinaSchema
      = none ∧
    (clearCache ⟨some [], some [], some [("posts", [("__filepath__", ⟨[]⟩)])]⟩).lookup
      = none ∧
    (clearCache ⟨some [], some [], some [("posts", [("__filepath__", ⟨[]⟩)])]⟩).collectionIndexDefinitions
      = some [("posts", [("__filepath__", ⟨[]⟩)])] ∧
    (getIndexDefinitions []
        (clearCache ⟨some [], some [], some [("posts", [("__filepath__", ⟨[]⟩)])]⟩)).1
      = some [("posts", [("__filepath__", ⟨[]⟩)])] :=
  clearCache_keeps_index_definition_cache
    ⟨some [], some [], some [("posts", [("__filepath__", ⟨[]⟩)])]⟩ [] _ rfl

/-- C3 counterexample: the claim states `getIndexDefinitions` skips
fields of type rich-text.  The source's skip condition only covers
`indexed === false` and `type === 'object'`, so a rich-text field
(`content`, `indexed` unset) does receive a single-column index named
after it. -/
theorem index_defs_richtext_cex :
    lookupList
      (collectionIndexDefinitions
        ⟨"posts", [⟨"content", FieldType.richText, none⟩], []⟩)
      "content" = some ⟨[⟨"content", some FieldType.richText, none⟩]⟩ := by
  decide

/-- C3 (amended): for every collection (without user-declared composite
indexes, with field names distinct and distinct from `__filepath__`),
`getIndexDefinitions` always includes the default `__filepath__` index
with zero fields, and inserts a single-column index named after the field
for exactly those fields not skipped by the source's condition — i.e. it
skips fields of type object and fields with `indexed = false`, but it
does **not** skip rich-text fields — and produces no other index names. -/
theorem index_defs_fields (c : Collection)
    (hidx : c.indexes = [])
    (hfp : ∀ f ∈ c.fields, f.name ≠ DEFAULT_COLLECTION_SORT_KEY)
    (hnodup : (c.fields.map Field.name).Nodup) :
    lookupList (collectionIndexDefinitions c) DEFAULT_COLLECTION_SORT_KEY =
      some ⟨[]⟩ ∧
    (∀ f ∈ c.fields,
      lookupList (collectionIndexDefinitions c) f.name =
        if skipsField f then none else some (singleColumnDef f)) ∧
    (∀ name, name ≠ DEFAULT_COLLECTION_SORT_KEY →
      (∀ f ∈ c.fields, f.name ≠ name) →
      lookupList (collectionIndexDefinitions c) name = none) := by
  unfold collectionIndexDefinitions
  rw [hidx]
  simp only [List.foldl_nil]
  have hbase : ∀ k, k ≠ DEFAULT_COLLECTION_SORT_KEY →
      lookupList [(DEFAULT_COLLECTION_SORT_KEY, (⟨[]⟩ : IndexDefinition))] k = none := by
    intro k hk
    have : ¬DEFAULT_COLLECTION_SORT_KEY = k := fun hc => hk hc.symm
    simp [lookupList, List.find?, this]
  refine ⟨?_, ?_, ?_⟩
  · rw [lookup_fieldsFold]
    have hnone : c.fields.reverse.find?
        (fun f => decide (¬skipsField f ∧ f.name = DEFAULT_COLLECTION_SORT_KEY)) = none := by
      apply List.find?_eq_none.mpr
      intro f hf
      simp only [decide_eq_true_eq, not_and]
      intro _
      exact hfp f (List.mem_reverse.mp hf)
    rw [hnone]
    simp [lookupList, List.find?]
  · intro f hf
    rw [lookup_fieldsFold]
    by_cases hs : skipsField f
    · have hnone : c.fields.reverse.find?
          (fun g => decide (¬skipsField g ∧ g.name = f.name)) = none := by
        apply List.find?_eq_none.mpr
        intro g hg
        simp only [decide_eq_true_eq, not_and]
        intro hgskip hgname
        have hgf : g = f :=
          List.inj_on_of_nodup_map hnodup (List.mem_reverse.mp hg) hf hgname
        exact hgskip (hgf ▸ hs)
      rw [hnone, if_pos hs]
      exact hbase f.name (hfp f hf)
    · cases hfind : c.fields.reverse.find?
          (fun g => decide (¬skipsField g ∧ g.name = f.name)) with
      | none =>
        exfalso
        have := List.find?_eq_none.mp hfind f (List.mem_reverse.mpr hf)
        simp only [decide_eq_true_eq, not_and] at this
        exact this hs trivial
      | some g =>
        have hp := List.find?_some hfind
        have hmem := List.mem_of_find?_eq_some hfind
        simp only [decide_eq_true_eq] at hp
        have hgf : g = f :=
          List.inj_on_of_nodup_map hnodup (List.mem_reverse.mp hmem) hf hp.2
        rw [if_neg hs, hgf]
  · intro name hname hnone
    rw [lookup_fieldsFold]
    have hfnone : c.fields.reverse.find?
        (fun g => decide (¬skipsField g ∧ g.name = name)) = none := by
      apply List.find?_eq_none.mpr
      intro g hg
      simp only [decide_eq_true_eq, not_and]
      intro _
      exact hnone g (List.mem_reverse.mp hg)
    rw [hfnone]
    exact hbase name hname

theorem index_defs_fields_witness :
    lookupList
      (collectionIndexDefinitions
        ⟨"posts",
         [⟨"title", FieldType.string, none⟩, ⟨"rank", FieldType.number, none⟩,
          ⟨"meta", FieldType.object, none⟩, ⟨"secret", FieldType.string, some false⟩],
         []⟩)
      DEFAULT_COLLECTION_SORT_KEY = some ⟨[]⟩ ∧
    lookupList
      (collectionIndexDefinitions
        ⟨"posts",
         [⟨"title", FieldType.string, none⟩, ⟨"rank", FieldType.number, none⟩,
          ⟨"meta", FieldType.object, none⟩, ⟨"secret", FieldType.string, some false⟩],
         []⟩)
      "rank" =
      (if skipsField ⟨"rank", FieldType.number, none⟩ then none
       else some (singleColumnDef ⟨"rank", FieldType.number, none⟩)) := by
  have h := index_defs_fields
    ⟨"posts",
     [⟨"title", FieldType.string, none⟩, ⟨"rank", FieldType.number, none⟩,
      ⟨"meta", FieldType.object, none⟩, ⟨"secret", FieldType.string, some false⟩],
     []⟩ rfl (by decide) (by decide)
  exact ⟨h.1, h.2.1 ⟨"rank", FieldType.number, none⟩ (by decide)⟩

/-- C4: `indexStatusCallbackWrapper` — the wrapper shared by
`indexContent`, `indexContentByPaths` and `deleteContentByPaths` — emits
`inprogress` as the first event, before the body runs; a successful body
produces exactly the events `[inprogress, complete]` (so exactly one
`complete` and no `failed`) and an overall success; a failing body
produces exactly `[inprogress, failed e]` (exactly one `failed`, carrying
the body's error, and no `complete`) and re-throws that same error.  In
particular no run emits both `complete` and `failed`. -/
theorem index_status_events {σ E : Type} (fn : σ → σ × Except E Unit) (s : σ) :
    ((indexStatusCallbackWrapper fn s).1.head? = some IndexStatus.inprogress) ∧
    (∀ u, (fn s).2 = Except.ok u →
      (indexStatusCallbackWrapper fn s).1 =
        [IndexStatus.inprogress, IndexStatus.complete] ∧
      (indexStatusCallbackWrapper fn s).2.2 = Except.ok ()) ∧
    (∀ e, (fn s).2 = Except.error e →
      (indexStatusCallbackWrapper fn s).1 =
        [IndexStatus.inprogress, IndexStatus.failed e] ∧
      (indexStatusCallbackWrapper fn s).2.2 = Except.error e) := by
  rcases hfn : fn s with ⟨s2, r⟩
  cases r with
  | ok u => simp [indexStatusCallbackWrapper, hfn]
  | error e => simp [indexStatusCallbackWrapper, hfn]

theorem index_status_events_witness :
    (indexStatusCallbackWrapper (fun s : Nat => (s, (Except.ok () : Except String Unit))) 0).1
        = [IndexStatus.inprogress, IndexStatus.complete] ∧
    (indexStatusCallbackWrapper (fun s : Nat => (s, (Except.ok () : Except String Unit))) 0).2.2
        = Except.ok () :=
  (index_status_events (fun s : Nat => (s, Except.ok ())) 0).2.1 () rfl

/-- C10: for a filepath equal to one of the reserved system-file names,
`get` raises the unexpected-config error, the stringify step raises, and
`put` raises the write-path fetch error wrapping the config-file error.
In each definition the error escapes before the bridge write and before
the store batch, so neither the store nor the bridge is touched, and
`get` returns no payload. -/
theorem system_files_rejected (ctx : FileCtx)
    (defs : List (String × IndexDefinition)) (p : String) (d : Doc) (s : Store)
    (hp : SYSTEM_FILES.contains p = true) :
    dbGet ctx p s = Except.error (DbError.unexpectedConfigGet p) ∧
    stringifyFileM ctx p d = Except.error (DbError.unexpectedConfigPut p) ∧
    dbPut defs ctx p d s =
      Except.error (DbError.fetchError p (DbError.unexpectedConfigPut p)) := by
  have hmem : p ∈ SYSTEM_FILES := by simpa using hp
  refine ⟨?_, ?_, ?_⟩ <;> simp [dbGet, stringifyFileM, dbPut, hmem]

theorem system_files_rejected_witness :
    SYSTEM_FILES.contains "_schema" = true ∧
    dbGet ⟨"md", ".md", none, "c", "c", "t", false⟩ "_schema" emptyStore =
      Except.error (DbError.unexpectedConfigGet "_schema") ∧
    stringifyFileM ⟨"md", ".md", none, "c", "c", "t", false⟩ "_schema" [] =
      Except.error (DbError.unexpectedConfigPut "_schema") ∧
    dbPut [] ⟨"md", ".md", none, "c", "c", "t", false⟩ "_schema" [] emptyStore =
      Except.error (DbError.fetchError "_schema" (DbError.unexpectedConfigPut "_schema")) :=
  ⟨by decide,
   system_files_rejected ⟨"md", ".md", none, "c", "c", "t", false⟩ [] "_schema" []
     emptyStore (by decide)⟩

/-- C8 counterexample: the claim states that a hydrator error whose edge
path names a generated config file is re-raised unadorned.
`.tina/__generated__/_schema.json` is one of the three generated config
files (§6 of the spec), yet the source only exempts paths containing
`.tina/__generated__/_graphql.json`, so an `Error` thrown while hydrating
the generated schema file is wrapped, not re-raised unadorned. -/
theorem hydrator_wraps_generated_schema_cex :
    hydratorCatch true ".tina/__generated__/_schema.json" "posts" =
      HydrateRaise.wrapped ".tina/__generated__/_schema.json" "posts" := by
  decide

/-- C8 (amended): a hydrator failure is re-raised wrapped as a
`TinaQueryError` annotated with the offending path and the collection
exactly when the thrown value is an `Error` and the path does not contain
`.tina/__generated__/_graphql.json`; otherwise — non-`Error` values, or
paths naming the generated GraphQL schema file — the original error is
re-raised unadorned. -/
theorem hydrator_error_wrapping (isErr : Bool) (p coll : String) :
    (strIncludes p ".tina/__generated__/_graphql.json" = true →
      hydratorCatch isErr p coll = HydrateRaise.original) ∧
    (isErr = false → hydratorCatch isErr p coll = HydrateRaise.original) ∧
    (isErr = true → strIncludes p ".tina/__generated__/_graphql.json" = false →
      hydratorCatch isErr p coll = HydrateRaise.wrapped p coll) := by
  unfold hydratorCatch
  refine ⟨fun h => by simp [h], fun h => by simp [h], fun h1 h2 => by simp [h1, h2]⟩

theorem hydrator_error_wrapping_witness :
    hydratorCatch true "content/posts/a.md" "posts" =
      HydrateRaise.wrapped "content/posts/a.md" "posts" :=
  (hydrator_error_wrapping true "content/posts/a.md" "posts").2.2 rfl (by decide)

/-- C5 counterexample: the claim states the effective limit is
`first ?? last ?? 50`.  The source tests `if (first)` with JavaScript
truthiness, so a caller-supplied `first = 0` is ignored: with
`first = 0, last = 7` the source computes limit `7`, while
`first ?? last ?? 50` is `0`. -/
theorem effective_limit_zero_first_cex :
    effectiveLimit (some 0) (some 7) = 7 ∧
    specNullishLimit (some 0) (some 7) = 0 := by decide

/-- C5 (amended): the effective limit is `first` if `first` is supplied
and truthy (nonzero), else `last` if supplied and truthy, else 50; and a
limit of `-1` means unlimited — the limit check never breaks the scan,
never sets `hasNextPage`/`hasPreviousPage`, and every matching, filtered
candidate becomes an edge. -/
theorem effective_limit_and_unlimited (first last : Option Int) (rev : Bool)
    (cs : List Candidate) :
    (truthyInt first = true → effectiveLimit first last = first.getD 0) ∧
    (truthyInt first = false → truthyInt last = true →
      effectiveLimit first last = last.getD 0) ∧
    (truthyInt first = false → truthyInt last = false →
      effectiveLimit first last = 50) ∧
    (effectiveLimit first last = -1 →
      (scanIterate (effectiveLimit first last) rev initialScanState cs).hasNextPage = false ∧
      (scanIterate (effectiveLimit first last) rev initialScanState cs).hasPreviousPage = false ∧
      (scanIterate (effectiveLimit first last) rev initialScanState cs).edges =
        cs.filterMap (fun c =>
          if c.matched ∧ c.passes then some ⟨c.key, c.filepath⟩ else none)) := by
  refine ⟨fun h => by simp [effectiveLimit, h],
          fun h1 h2 => by simp [effectiveLimit, h1, h2],
          fun h1 h2 => by simp [effectiveLimit, h1, h2], ?_⟩
  intro h
  rw [h]
  obtain ⟨h1, h2, h3⟩ := scanIterate_unlimited rev cs initialScanState
  exact ⟨by rw [h1]; rfl, by rw [h2]; rfl, by rw [h3]; rfl⟩

theorem effective_limit_and_unlimited_witness :
    (scanIterate (effectiveLimit (some (-1)) (some 3)) false initialScanState
        [⟨"k1", true, "p1", true⟩, ⟨"k2", true, "p2", false⟩]).hasNextPage = false ∧
    (scanIterate (effectiveLimit (some (-1)) (some 3)) false initialScanState
        [⟨"k1", true, "p1", true⟩, ⟨"k2", true, "p2", false⟩]).hasPreviousPage = false ∧
    (scanIterate (effectiveLimit (some (-1)) (some 3)) false initialScanState
        [⟨"k1", true, "p1", true⟩, ⟨"k2", true, "p2", false⟩]).edges = [⟨"k1", "p1"⟩] := by
  have h := (effective_limit_and_unlimited (some (-1)) (some 3) false
    [⟨"k1", true, "p1", true⟩, ⟨"k2", true, "p2", false⟩]).2.2.2 (by decide)
  exact ⟨h.1, h.2.1, by rw [h.2.2]; rfl⟩

/-- C6 counterexample: the claim states that `lt` is the decoded `before`
cursor whenever `before` is provided, independently of `after`.  The
source uses `if (after) ... else if (before) ...`, so when both cursors
are supplied `lt` is left unset (and `lte` falls back to the max byte);
here with `after = "A"`, `before = "B"` the derived bounds have
`lt = none`, not the decoded `before`. -/
theorem bounds_both_cursors_cex :
    (deriveBounds (fun s => s) (some "A") (some "B") none none none).lt = none ∧
    (deriveBounds (fun s => s) (some "A") (some "B") none none none).gt = some "A" ∧
    (deriveBounds (fun s => s) (some "A") (some "B") none none none).lte = some maxByte := by
  decide

/-- C6 (amended): `gt` is the decoded `after` cursor whenever `after` is
supplied (truthy); `lt` is the decoded `before` cursor only when `before`
is supplied and `after` is not (the source's `else if`) — when both are
supplied `lt` stays unset; when neither cursor is supplied the bounds
fall back to `gte` = left filter suffix (or empty) and `lte` = right
filter suffix followed by the max byte (or the max byte alone); `reverse`
is the truthiness of `last`. -/
theorem derive_bounds_cases (decode : String → String)
    (after before fl fr : Option String) (last : Option Int) :
    ((deriveBounds decode after before fl fr last).reverse = truthyInt last) ∧
    (truthyStr after = true →
      (deriveBounds decode after before fl fr last).gt =
        some (decode (after.getD ""))) ∧
    (truthyStr after = false → truthyStr before = true →
      (deriveBounds decode after before fl fr last).lt =
        some (decode (before.getD ""))) ∧
    (truthyStr after = true →
      (deriveBounds decode after before fl fr last).lt = none) ∧
    (truthyStr after = false → truthyStr before = false →
      (deriveBounds decode after before fl fr last).gte =
        some (if truthyStr fl = true then fl.getD "" else "") ∧
      (deriveBounds decode after before fl fr last).lte =
        some (if truthyStr fr = true then fr.getD "" ++ maxByte else maxByte)) := by
  unfold deriveBounds
  by_cases ha : truthyStr after = true <;>
    by_cases hb : truthyStr before = true <;>
    by_cases hda : truthyStr (some (decode (after.getD ""))) = true <;>
    by_cases hdb : truthyStr (some (decode (before.getD ""))) = true <;>
    (refine ⟨?_, ?_, ?_, ?_, ?_⟩ <;> intros <;> simp_all [truthyStr])

/-- C1: starting from a store with no primary record and no index entries
for path `p`, after `put(p, d1)` followed by `put(p, d2)` (both
succeeding, with payloads unaffected by body reshaping), every defined
index of the collection contains exactly one entry whose trailing path
component is `p` — the entry keyed by the field values of `d2` — and the
primary record holds `d2`: the read-before-write of `put` deletes the
stale entries derived from the existing primary record and writes the new
entries in one batch together with the primary record. -/
theorem put_overwrite_reindexes (defs : List (String × IndexDefinition))
    (ctx : FileCtx) (p : String) (d1 d2 : Doc) (s0 : Store)
    (hsys : SYSTEM_FILES.contains p = false)
    (hprim : s0.primary p = none)
    (hclean : ∀ n k, k.path = p → s0.indexes (n, k) = false)
    (hnodup : (defs.map Prod.fst).Nodup)
    (hpay1 : mkPayload ctx.format ctx.bodyFieldName d1 = d1)
    (hpay2 : mkPayload ctx.format ctx.bodyFieldName d2 = d2) :
    dbPut defs ctx p d1 s0 = Except.ok (dbPutD defs ctx p d1 s0) ∧
    dbPut defs ctx p d2 (dbPutD defs ctx p d1 s0) =
      Except.ok (dbPutD defs ctx p d2 (dbPutD defs ctx p d1 s0)) ∧
    (∀ nd ∈ defs, ∀ k : IndexKey, k.path = p →
      ((dbPutD defs ctx p d2 (dbPutD defs ctx p d1 s0)).indexes (nd.1, k) = true ↔
        k = docIndexKey nd.2 d2 p)) ∧
    (dbPutD defs ctx p d2 (dbPutD defs ctx p d1 s0)).primary p = some d2 := by
  have hs1p : (dbPutD defs ctx p d1 s0).primary p = some d1 := by
    rw [dbPutD_primary defs ctx p d1 s0 p hsys, hpay1, if_pos rfl]
  refine ⟨dbPut_ok defs ctx p d1 s0 hsys, dbPut_ok defs ctx p d2 _ hsys, ?_, ?_⟩
  · intro nd hnd k hk
    rw [dbPutD_indexes_existing defs ctx p d2 _ (nd.1, k) d1 hsys hs1p, hpay2]
    by_cases hkey : k = docIndexKey nd.2 d2 p
    · have hany : (defs.any fun dd =>
          decide ((nd.1, k) = (dd.1, docIndexKey dd.2 d2 p))) = true :=
        List.any_eq_true.mpr ⟨nd, hnd, by simp [hkey]⟩
      rw [if_pos hany]
      simp [hkey]
    · have hany : ¬(defs.any fun dd =>
          decide ((nd.1, k) = (dd.1, docIndexKey dd.2 d2 p))) = true := by
        intro hc
        obtain ⟨dd, hdd, hddq⟩ := List.any_eq_true.mp hc
        have heq : (nd.1, k) = (dd.1, docIndexKey dd.2 d2 p) := of_decide_eq_true hddq
        simp only [Prod.mk.injEq] at heq
        obtain ⟨h1, h2⟩ := heq
        have hddnd : dd = nd :=
          List.inj_on_of_nodup_map hnodup hdd hnd h1.symm
        exact hkey (by rw [h2, hddnd])
      rw [if_neg hany]
      by_cases hdel : (defs.any fun dd =>
          decide ((nd.1, k) = (dd.1, docIndexKey dd.2 d1 p))) = true
      · rw [if_pos hdel]
        simp [hkey]
      · rw [if_neg hdel]
        rw [dbPutD_indexes_fresh defs ctx p d1 s0 (nd.1, k) hsys hprim, hpay1,
          if_neg hdel, hclean nd.1 k hk]
        simp [hkey]
  · rw [dbPutD_primary defs ctx p d2 _ p hsys, hpay2, if_pos rfl]

theorem put_overwrite_reindexes_witness :
    ((dbPutD [("rank", ⟨[⟨"rank", some FieldType.number, some ⟨"0", 4⟩⟩]⟩)]
        ⟨"md", ".md", none, "posts", "posts", "post", false⟩ "a"
        [("rank", Val.num 9)]
        (dbPutD [("rank", ⟨[⟨"rank", some FieldType.number, some ⟨"0", 4⟩⟩]⟩)]
          ⟨"md", ".md", none, "posts", "posts", "post", false⟩ "a"
          [("rank", Val.num 2)] emptyStore)).indexes
        ("rank", ⟨[Val.num 9], "a"⟩) = true ↔
      (⟨[Val.num 9], "a"⟩ : IndexKey) =
        docIndexKey ⟨[⟨"rank", some FieldType.number, some ⟨"0", 4⟩⟩]⟩
          [("rank", Val.num 9)] "a") ∧
    (dbPutD [("rank", ⟨[⟨"rank", some FieldType.number, some ⟨"0", 4⟩⟩]⟩)]
        ⟨"md", ".md", none, "posts", "posts", "post", false⟩ "a"
        [("rank", Val.num 9)]
        (dbPutD [("rank", ⟨[⟨"rank", some FieldType.number, some ⟨"0", 4⟩⟩]⟩)]
          ⟨"md", ".md", none, "posts", "posts", "post", false⟩ "a"
          [("rank", Val.num 2)] emptyStore)).primary "a" =
      some [("rank", Val.num 9)] := by
  have h := put_overwrite_reindexes
    [("rank", ⟨[⟨"rank", some FieldType.number, some ⟨"0", 4⟩⟩]⟩)]
    ⟨"md", ".md", none, "posts", "posts", "post", false⟩ "a"
    [("rank", Val.num 2)] [("rank", Val.num 9)] emptyStore
    (by decide) rfl (fun n k _ => rfl) (by decide) rfl rfl
  exact ⟨h.2.2.1 ("rank", ⟨[⟨"rank", some FieldType.number, some ⟨"0", 4⟩⟩]⟩)
    (by decide) ⟨[Val.num 9], "a"⟩ rfl, h.2.2.2⟩

/-- C7: for a path `p` whose primary record exists, `delete(p)` issues
one atomic batch of a del-op for `p`'s entry in every index of the
collection (derived from the existing record) plus the del of the primary
record, and afterwards removes the file via the bridge: provided the
store is consistent (every index entry for `p` is the one derived from
the stored record, the invariant the write path maintains), afterwards no
index entry in any index contains path `p`, the primary record for `p` is
absent, and the bridge file is gone. -/
theorem delete_removes_document (defs : List (String × IndexDefinition))
    (p : String) (item : Doc) (s0 : Store)
    (hprim : s0.primary p = some item)
    (hclean : ∀ n k, k.path = p → s0.indexes (n, k) = true →
      ∃ nd ∈ defs, n = nd.1 ∧ k = docIndexKey nd.2 item p) :
    (∀ n k, k.path = p → (dbDelete defs p s0).indexes (n, k) = false) ∧
    (dbDelete defs p s0).primary p = none ∧
    (dbDelete defs p s0).files p = false := by
  have hidx : (dbDelete defs p s0).indexes =
      (applyBatch s0 (makeIndexOpsForDocument p defs item OpKind.del ++
        [BatchOp.delPrimary p])).indexes := by
    simp [dbDelete, hprim]
  have hprm : (dbDelete defs p s0).primary =
      (applyBatch s0 (makeIndexOpsForDocument p defs item OpKind.del ++
        [BatchOp.delPrimary p])).primary := by
    simp [dbDelete, hprim]
  refine ⟨?_, ?_, ?_⟩
  · intro n k hk
    rw [hidx, applyBatch_indexes, lastIdxOp_append, lastIdxOp_makeOps]
    have h1 : lastIdxOp (n, k) [BatchOp.delPrimary p] = none := rfl
    rw [h1]
    by_cases hany : (defs.any fun dd =>
        decide ((n, k) = (dd.1, docIndexKey dd.2 item p))) = true
    · rw [if_pos hany]
    · rw [if_neg hany]
      cases hs0 : s0.indexes (n, k) with
      | false => rfl
      | true =>
        exfalso
        obtain ⟨nd, hnd, hn, hkk⟩ := hclean n k hk hs0
        exact hany (List.any_eq_true.mpr ⟨nd, hnd, by simp [hn, hkk]⟩)
  · rw [hprm, applyBatch_primary, lastPrimaryOp_append]
    simp [lastPrimaryOp, touchPrimary, lastPrimaryOp_makeOps]
  · simp [dbDelete, hprim]

theorem delete_removes_document_witness :
    (dbDelete [("rank", ⟨[⟨"rank", some FieldType.number, some ⟨"0", 4⟩⟩]⟩)] "a"
        ⟨fun q => if q = "a" then some [("rank", Val.num 9)] else none,
         fun e => decide (e = ("rank", ⟨[Val.num 9], "a"⟩)),
         fun q => decide (q = "a")⟩).primary "a" = none ∧
    (dbDelete [("rank", ⟨[⟨"rank", some FieldType.number, some ⟨"0", 4⟩⟩]⟩)] "a"
        ⟨fun q => if q = "a" then some [("rank", Val.num 9)] else none,
         fun e => decide (e = ("rank", ⟨[Val.num 9], "a"⟩)),
         fun q => decide (q = "a")⟩).files "a" = false := by
  have h := delete_removes_document
    [("rank", ⟨[⟨"rank", some FieldType.number, some ⟨"0", 4⟩⟩]⟩)] "a"
    [("rank", Val.num 9)]
    ⟨fun q => if q = "a" then some [("rank", Val.num 9)] else none,
     fun e => decide (e = ("rank", ⟨[Val.num 9], "a"⟩)),
     fun q => decide (q = "a")⟩
    (by decide)
    (fun n k hk hin => by
      have he : (n, k) = ("rank", (⟨[Val.num 9], "a"⟩ : IndexKey)) :=
        of_decide_eq_true hin
      simp only [Prod.mk.injEq] at he
      obtain ⟨h1, h2⟩ := he
      exact ⟨("rank", ⟨[⟨"rank", some FieldType.number, some ⟨"0", 4⟩⟩]⟩),
        by decide, h1, by rw [h2]; decide⟩)
  exact ⟨h.2.1, h.2.2⟩

/-- C9 counterexample: the claim states that `get` after `put` returns
the document plus only the metadata fields `_collection`, `_template`,
`_relativePath` and `_id`, with no other field added.  The source's `get`
also assigns `_keepTemplateKey` (`!!collection.templates`), a fifth added
field that neither belongs to the document nor appears in the claim's
list. -/
theorem get_adds_keepTemplateKey_cex :
    lookupList
      (dbGetD ⟨"md", ".md", none, "posts", "posts", "post", false⟩ "a"
        (dbPutD [] ⟨"md", ".md", none, "posts", "posts", "post", false⟩ "a"
          [("rank", Val.num 1)] emptyStore))
      "_keepTemplateKey" = some (Val.bool false) ∧
    "_keepTemplateKey" ∉ ["_collection", "_template", "_relativePath", "_id"] ∧
    lookupList [("rank", Val.num 1)] "_keepTemplateKey" = none := by
  decide

/-- C9 (amended): for every path `p` and document `d` accepted by `put`
(no reserved `$_body` property, a body field that is present in `d` and
not itself named `$_body`, file extension agreeing with the collection
format), `get(p)` after `put(p, d)` returns `d` up to the body-field
round-trip (the `isBody` field is stored under `$_body` and moved back
under its declared name for markdown-like extensions) plus the added
metadata fields `_collection`, `_keepTemplateKey`, `_template`,
`_relativePath` and `_id` — and no other field of `d` is changed, added,
or dropped. -/
theorem get_put_round_trip (defs : List (String × IndexDefinition))
    (ctx : FileCtx) (p : String) (d : Doc) (s0 : Store)
    (hsys : SYSTEM_FILES.contains p = false)
    (hext : (ctx.format = "md" ∨ ctx.format = "mdx") ↔
      (ctx.extension = ".md" ∨ ctx.extension = ".mdx"))
    (hbody : ∀ b, ctx.bodyFieldName = some b →
      b ≠ "$_body" ∧ (lookupList d b).isSome = true)
    (hnb : lookupList d "$_body" = none) :
    dbGet ctx p (dbPutD defs ctx p d s0) =
      Except.ok (dbGetD ctx p (dbPutD defs ctx p d s0)) ∧
    (∀ k, k ∉ metadataKeys →
      lookupList (dbGetD ctx p (dbPutD defs ctx p d s0)) k = lookupList d k) ∧
    (lookupList (dbGetD ctx p (dbPutD defs ctx p d s0)) "_collection" =
        some (Val.str ctx.collectionName) ∧
      lookupList (dbGetD ctx p (dbPutD defs ctx p d s0)) "_keepTemplateKey" =
        some (Val.bool ctx.hasTemplates) ∧
      lookupList (dbGetD ctx p (dbPutD defs ctx p d s0)) "_template" =
        some (Val.str ctx.templateName) ∧
      lookupList (dbGetD ctx p (dbPutD defs ctx p d s0)) "_relativePath" =
        some (Val.str (relativePath ctx.collectionPath p)) ∧
      lookupList (dbGetD ctx p (dbPutD defs ctx p d s0)) "_id" =
        some (Val.str p)) := by
  have hmem : p ∉ SYSTEM_FILES := by simpa using hsys
  have hs1 : (dbPutD defs ctx p d s0).primary p =
      some (mkPayload ctx.format ctx.bodyFieldName d) := by
    rw [dbPutD_primary defs ctx p d s0 p hsys, if_pos rfl]
  have hget : dbGet ctx p (dbPutD defs ctx p d s0) =
      Except.ok (withMetadata ctx p
        (reshapeBody ctx (mkPayload ctx.format ctx.bodyFieldName d))) := by
    simp [dbGet, hmem, hs1]
  have hgetD : dbGetD ctx p (dbPutD defs ctx p d s0) =
      withMetadata ctx p
        (reshapeBody ctx (mkPayload ctx.format ctx.bodyFieldName d)) := by
    simp [dbGetD, hget]
  refine ⟨by rw [hget, hgetD], ?_, ?_⟩
  · intro k hkm
    rw [hgetD, lookup_withMetadata_other ctx p _ k hkm,
      lookup_reshape_mkPayload ctx d k hext hbody hnb]
  · rw [hgetD]
    exact lookup_withMetadata_meta ctx p _

theorem get_put_round_trip_witness :
    lookupList
      (dbGetD ⟨"md", ".md", some "content", "posts", "posts", "post", false⟩ "a.md"
        (dbPutD [] ⟨"md", ".md", some "content", "posts", "posts", "post", false⟩
          "a.md" [("title", Val.str "T"), ("content", Val.str "B")] emptyStore))
      "_id" = some (Val.str "a.md") ∧
    lookupList
      (dbGetD ⟨"md", ".md", some "content", "posts", "posts", "post", false⟩ "a.md"
        (dbPutD [] ⟨"md", ".md", some "content", "posts", "posts", "post", false⟩
          "a.md" [("title", Val.str "T"), ("content", Val.str "B")] emptyStore))
      "content" =
      lookupList [("title", Val.str "T"), ("content", Val.str "B")] "content" := by
  have h := get_put_round_trip []
    ⟨"md", ".md", some "content", "posts", "posts", "post", false⟩ "a.md"
    [("title", Val.str "T"), ("content", Val.str "B")] emptyStore
    (by decide) (by decide)
    (fun b hb => by
      injection hb with hh
      subst hh
      exact ⟨by decide, by decide⟩)
    (by decide)
  exact ⟨h.2.2.2.2.2.2, h.2.1 "content" (by decide)⟩

theorem derive_bounds_cases_witness :
    (deriveBounds (fun s => s) (some "A") none none none (some 2)).gt = some "A" ∧
    (deriveBounds (fun s => s) (some "A") none none none (some 2)).lt = none ∧
    (deriveBounds (fun s => s) (some "A") none none none (some 2)).reverse =
      truthyInt (some 2) :=
  ⟨(derive_bounds_cases (fun s => s) (some "A") none none none (some 2)).2.1 (by decide),
   (derive_bounds_cases (fun s => s) (some "A") none none none (some 2)).2.2.2.1 (by decide),
   (derive_bounds_cases (fun s => s) (some "A") none none none (some 2)).1⟩

end TinaDb
